import Mathlib

/-!
Verification of the `unit-parser` program (src/main.rs, src/parser.rs):
a shallow embedding of its data model, dimensional arithmetic, nom-based
parser pipeline and evaluator, together with theorems settling the frozen
claims about the specification.

Modelling conventions:
* Rust `isize` exponents are modelled as `Int` (no claim exercises
  integer overflow of an exponent, and `isize::from_str_radix` only
  errors on overflow, which is the one branch not modelled).
* Rust `f64` is modelled by `F64`: a NaN, two infinities, and exact
  rational finite values.  Finite arithmetic is exact (no rounding);
  no claim in scope depends on rounding of finite values, only on the
  IEEE-754 special-value behaviour, which is modelled faithfully
  (except that negative zero is identified with zero).
* `&str` input is modelled as `List Char`, matching nom's `&str`
  parsers which work char-by-char.
-/

deriving instance DecidableEq for Except

namespace UnitParser

abbrev Chars := List Char

/-- The seven SI base-dimension exponents (struct `PhysicalQuantity`,
src/main.rs). Field order matches the source. -/
@[ext] structure PhysicalQuantity where
  time : Int
  length : Int
  mass : Int
  current : Int
  temperature : Int
  amount_of_substance : Int
  luminous_intensity : Int
deriving DecidableEq

/-- `PhysicalQuantityBuilder::new().build()`: the all-zero (dimensionless)
vector. -/
def zeroPQ : PhysicalQuantity := ⟨0, 0, 0, 0, 0, 0, 0⟩

/-- `impl Mul for PhysicalQuantity` (src/main.rs): component-wise sum. -/
def pqMul (a b : PhysicalQuantity) : PhysicalQuantity :=
  ⟨a.time + b.time, a.length + b.length, a.mass + b.mass,
   a.current + b.current, a.temperature + b.temperature,
   a.amount_of_substance + b.amount_of_substance,
   a.luminous_intensity + b.luminous_intensity⟩

/-- `impl Div for PhysicalQuantity` (src/main.rs): component-wise
difference. -/
def pqDiv (a b : PhysicalQuantity) : PhysicalQuantity :=
  ⟨a.time - b.time, a.length - b.length, a.mass - b.mass,
   a.current - b.current, a.temperature - b.temperature,
   a.amount_of_substance - b.amount_of_substance,
   a.luminous_intensity - b.luminous_intensity⟩

/-- Component-wise scaling of a dimension vector by an integer; used to
state the exponent-scaling law of the unit table. -/
def pqScale (n : Int) (a : PhysicalQuantity) : PhysicalQuantity :=
  ⟨n * a.time, n * a.length, n * a.mass, n * a.current,
   n * a.temperature, n * a.amount_of_substance, n * a.luminous_intensity⟩

/-- Model of Rust `f64`: NaN, the two infinities, and finite values
(kept as exact rationals; see the header comment). Negative zero is not
distinguished from zero. -/
inductive F64 where
  | fin (q : ℚ)
  | inf
  | neginf
  | nan
deriving DecidableEq

/-- IEEE-754 negation on the `F64` model. -/
def f64Neg : F64 → F64
  | .fin a => .fin (-a)
  | .inf => .neginf
  | .neginf => .inf
  | .nan => .nan

/-- IEEE-754 addition on the `F64` model (finite part exact). -/
def f64Add : F64 → F64 → F64
  | .nan, _ => .nan
  | _, .nan => .nan
  | .fin a, .fin b => .fin (a + b)
  | .inf, .inf => .inf
  | .inf, .neginf => .nan
  | .neginf, .inf => .nan
  | .neginf, .neginf => .neginf
  | .inf, .fin _ => .inf
  | .fin _, .inf => .inf
  | .neginf, .fin _ => .neginf
  | .fin _, .neginf => .neginf

/-- IEEE-754 subtraction on the `F64` model: `a - b = a + (-b)`. -/
def f64Sub (a b : F64) : F64 := f64Add a (f64Neg b)

/-- IEEE-754 multiplication on the `F64` model (signed zeros
identified, so `inf * 0 = nan` as in IEEE-754). -/
def f64Mul : F64 → F64 → F64
  | .nan, _ => .nan
  | _, .nan => .nan
  | .fin a, .fin b => .fin (a * b)
  | .inf, .inf => .inf
  | .inf, .neginf => .neginf
  | .neginf, .inf => .neginf
  | .neginf, .neginf => .inf
  | .inf, .fin b => if b = 0 then .nan else if 0 < b then .inf else .neginf
  | .fin a, .inf => if a = 0 then .nan else if 0 < a then .inf else .neginf
  | .neginf, .fin b => if b = 0 then .nan else if 0 < b then .neginf else .inf
  | .fin a, .neginf => if a = 0 then .nan else if 0 < a then .neginf else .inf

/-- IEEE-754 division on the `F64` model. `x / 0` follows the
positive-zero convention (negative zero is not modelled). -/
def f64Div : F64 → F64 → F64
  | .nan, _ => .nan
  | _, .nan => .nan
  | .fin a, .fin b =>
    if b = 0 then (if a = 0 then .nan else if 0 < a then .inf else .neginf)
    else .fin (a / b)
  | .inf, .inf => .nan
  | .inf, .neginf => .nan
  | .neginf, .inf => .nan
  | .neginf, .neginf => .nan
  | .inf, .fin b => if 0 ≤ b then .inf else .neginf
  | .neginf, .fin b => if 0 ≤ b then .neginf else .inf
  | .fin _, .inf => .fin 0
  | .fin _, .neginf => .fin 0

/-- `struct ConcreteNumber` (src/main.rs): a magnitude paired with a
dimension vector. -/
structure ConcreteNumber where
  magnitude : F64
  physical_quantity : PhysicalQuantity
deriving DecidableEq

/-- `enum CustomError` (src/main.rs). -/
inductive CustomError where
  | AddingTwoDifferentUnits
  | SubtractingTwoDifferentUnits
  | SubExpressionError
  | ParseError (detail : String)
deriving DecidableEq

/-- `impl Add for ConcreteNumber` (src/main.rs): errors unless the two
dimension vectors are equal, else sums magnitudes. -/
def cnAdd (a b : ConcreteNumber) : Except CustomError ConcreteNumber :=
  if a.physical_quantity ≠ b.physical_quantity then
    .error .AddingTwoDifferentUnits
  else
    .ok ⟨f64Add a.magnitude b.magnitude, a.physical_quantity⟩

/-- `impl Sub for ConcreteNumber` (src/main.rs). -/
def cnSub (a b : ConcreteNumber) : Except CustomError ConcreteNumber :=
  if a.physical_quantity ≠ b.physical_quantity then
    .error .SubtractingTwoDifferentUnits
  else
    .ok ⟨f64Sub a.magnitude b.magnitude, a.physical_quantity⟩

/-- `impl Mul for ConcreteNumber` (src/main.rs): always succeeds. -/
def cnMul (a b : ConcreteNumber) : ConcreteNumber :=
  ⟨f64Mul a.magnitude b.magnitude, pqMul a.physical_quantity b.physical_quantity⟩

/-- `impl Div for ConcreteNumber` (src/main.rs): always succeeds. -/
def cnDiv (a b : ConcreteNumber) : ConcreteNumber :=
  ⟨f64Div a.magnitude b.magnitude, pqDiv a.physical_quantity b.physical_quantity⟩

/-- `enum Expr` (src/parser.rs). -/
inductive Expr where
  | Value (cn : ConcreteNumber)
  | Add (a b : Expr)
  | Sub (a b : Expr)
  | Mul (a b : Expr)
  | Div (a b : Expr)
  | Paren (e : Expr)
deriving DecidableEq

/-- `enum Oper` (src/parser.rs). -/
inductive Oper where
  | Add
  | Sub
  | Mul
  | Div
deriving DecidableEq

/-- `Expr::evaluate` (src/parser.rs): if either child of a binary node
fails, the node fails with the generic `SubExpressionError`; otherwise
the `ConcreteNumber` operation is applied. -/
def Expr.evaluate : Expr → Except CustomError ConcreteNumber
  | .Value cn => .ok cn
  | .Add a b =>
    match a.evaluate, b.evaluate with
    | .ok x, .ok y => cnAdd x y
    | _, _ => .error .SubExpressionError
  | .Sub a b =>
    match a.evaluate, b.evaluate with
    | .ok x, .ok y => cnSub x y
    | _, _ => .error .SubExpressionError
  | .Mul a b =>
    match a.evaluate, b.evaluate with
    | .ok x, .ok y => .ok (cnMul x y)
    | _, _ => .error .SubExpressionError
  | .Div a b =>
    match a.evaluate, b.evaluate with
    | .ok x, .ok y => .ok (cnDiv x y)
    | _, _ => .error .SubExpressionError
  | .Paren e => e.evaluate

/-! ## The nom combinator layer

Deterministic parsers `Chars → Except NomErr (Chars × α)` modelling the
nom 7 combinators used by src/parser.rs on complete `&str` input.
`Err::Failure` does not arise in the modelled fragment except through
nom's `cut(digit1)` inside a float exponent, which is modelled as an
ordinary error (no claim distinguishes the two at the entry point,
whose `or_else` maps every nom error to `CustomError::ParseError`). -/

/-- The `nom::error::ErrorKind` values reachable in the modelled
fragment, plus `FuelK` for the model's recursion-fuel artifact. -/
inductive NomKind where
  | TagK
  | CharK
  | TakeWhile1K
  | DigitK
  | FloatK
  | MultiSpaceK
  | SeparatedListK
  | Many0K
  | FuelK
deriving DecidableEq

/-- `nom::error::Error<&str>`: the input at the failure point and an
error kind. -/
structure NomErr where
  input : Chars
  code : NomKind
deriving DecidableEq

/-- Result of a nom parser: error, or remaining input and value. -/
abbrev PR (α : Type) := Except NomErr (Chars × α)

/-- Rust `char::is_whitespace` as used by nom `multispace0/1`:
space, tab, carriage return, line feed. -/
def rustSpace (c : Char) : Bool := c = ' ' || c = '\t' || c = '\r' || c = '\n'

/-- `nom::character::complete::multispace0` (never fails): returns the
remaining input after dropping leading whitespace. -/
def ms0 (i : Chars) : Chars := i.dropWhile rustSpace

/-- `nom::character::complete::multispace1`. -/
def multispace1 (i : Chars) : PR Chars :=
  if (i.takeWhile rustSpace).isEmpty then .error ⟨i, .MultiSpaceK⟩
  else .ok (i.dropWhile rustSpace, i.takeWhile rustSpace)

/-- Prefix test (structurally recursive on the tag, so that it reduces
on a concrete tag and abstract input tail). -/
def tagPre : Chars → Chars → Bool
  | [], _ => true
  | _ :: _, [] => false
  | a :: as1, b :: bs => (a = b) && tagPre as1 bs

/-- `nom::bytes::complete::tag`. -/
def tagP (t : Chars) (i : Chars) : PR Chars :=
  if tagPre t i then .ok (i.drop t.length, t) else .error ⟨i, .TagK⟩

/-- `nom::character::complete::char`. -/
def charP (c : Char) (i : Chars) : PR Char :=
  match i with
  | [] => .error ⟨[], .CharK⟩
  | x :: xs => if x = c then .ok (xs, c) else .error ⟨x :: xs, .CharK⟩

/-- `fn alphabet_char(c: char) -> bool { is_alphabetic(c as u8) }`
(src/parser.rs). The Rust `as u8` cast truncates the code point to its
low byte before the ASCII-letter test. -/
def alphabet_char (c : Char) : Bool :=
  let b := c.toNat % 256
  (65 ≤ b && b ≤ 90) || (97 ≤ b && b ≤ 122)

/-- `pub fn word` = `take_while1(alphabet_char)` (src/parser.rs). -/
def word (i : Chars) : PR Chars :=
  if (i.takeWhile alphabet_char).isEmpty then .error ⟨i, .TakeWhile1K⟩
  else .ok (i.dropWhile alphabet_char, i.takeWhile alphabet_char)

/-- `nom::character::complete::digit1` (ASCII decimal digits). -/
def digit1 (i : Chars) : PR Chars :=
  if (i.takeWhile Char.isDigit).isEmpty then .error ⟨i, .DigitK⟩
  else .ok (i.dropWhile Char.isDigit, i.takeWhile Char.isDigit)

/-- Numeric value of an ASCII digit string. -/
def digitsVal (cs : Chars) : Int :=
  cs.foldl (fun a c => a * 10 + ((c.toNat : Int) - 48)) 0

/-- `fn parse_isize` (src/parser.rs):
`map_res(recognize(preceded(opt(tag("-")), digit1)), from_str_radix)`.
`isize::from_str_radix` fails only on overflow, which the unbounded
`Int` model does not exhibit; that `map_res` error branch is the one
branch not modelled. -/
def parse_isize (i : Chars) : PR Int :=
  match tagP "-".data i with
  | .ok (i1, _) =>
    match digit1 i1 with
    | .error e => .error e
    | .ok (i2, ds) => .ok (i2, -(digitsVal ds))
  | .error _ =>
    match digit1 i with
    | .error e => .error e
    | .ok (i2, ds) => .ok (i2, digitsVal ds)

/-- First branch of `unit_as_tuple`'s `alt`:
`separated_pair(word, char('^'), parse_isize)` (src/parser.rs). -/
def unit_exp_pair (i : Chars) : PR (Chars × Int) :=
  match word i with
  | .error e => .error e
  | .ok (i1, w) =>
    match charP '^' i1 with
    | .error e => .error e
    | .ok (i2, _) =>
      match parse_isize i2 with
      | .error e => .error e
      | .ok (i3, n) => .ok (i3, (w, n))

/-- The `alt` of `unit_as_tuple` (src/parser.rs): exponented symbol, or
bare symbol with exponent 1.  nom's `alt` returns the last branch's
error when all branches fail. -/
def unit_alt (i : Chars) : PR (Chars × Int) :=
  match unit_exp_pair i with
  | .error _ =>
    match word i with
    | .error e => .error e
    | .ok (i1, w) => .ok (i1, (w, 1))
  | .ok r => .ok r

/-- `pub fn unit_as_tuple` (src/parser.rs): the `alt` above with
`.or(Ok((input, ("dimensionless", 1))))` — the fallback consumes no
input. -/
def unit_as_tuple (i : Chars) : PR (Chars × Int) :=
  match unit_alt i with
  | .error _ => .ok (i, ("dimensionless".data, 1))
  | .ok r => .ok r

/-- Character list of a unit-symbol literal (kept abstract so that the
branch conditions of `unitPQ` stay syntactically uniform in proofs). -/
def sym (s : String) : Chars := s.data

/-- The unit-symbol table of `unit_as_physical_quantity`
(src/parser.rs): the `match s` over the parsed symbol, with the parsed
exponent `i` substituted exactly as in the source arms.  The final arm
is the source's silent `_ => pq.build()` dimensionless fallback
(commented in the source as "should really be an error"). -/
def unitPQ (s : Chars) (i : Int) : PhysicalQuantity :=
  if s = sym "s" then ⟨i, 0, 0, 0, 0, 0, 0⟩
  else if s = sym "m" then ⟨0, i, 0, 0, 0, 0, 0⟩
  else if s = sym "kg" then ⟨0, 0, i, 0, 0, 0, 0⟩
  else if s = sym "A" then ⟨0, 0, 0, i, 0, 0, 0⟩
  else if s = sym "K" then ⟨0, 0, 0, 0, i, 0, 0⟩
  else if s = sym "mol" then ⟨0, 0, 0, 0, 0, i, 0⟩
  else if s = sym "cd" then ⟨0, 0, 0, 0, 0, 0, i⟩
  else if s = sym "Hz" then ⟨i * -1, 0, 0, 0, 0, 0, 0⟩
  else if s = sym "N" then ⟨i * -2, i, i, 0, 0, 0, 0⟩
  else if s = sym "Pa" then ⟨i * -2, -1 * i, i, 0, 0, 0, 0⟩
  else if s = sym "J" then ⟨i * -2, 2 * i, i, 0, 0, 0, 0⟩
  else if s = sym "W" then ⟨i * -3, 2 * i, i, 0, 0, 0, 0⟩
  else if s = sym "C" then ⟨i, 0, 0, i, 0, 0, 0⟩
  else if s = sym "V" then ⟨i * -3, i * 2, i, i * -1, 0, 0, 0⟩
  else if s = sym "Wb" then ⟨i * -2, i * 2, i, i * -1, 0, 0, 0⟩
  else if s = sym "T" then ⟨i * -2, 0, i, i * -1, 0, 0, 0⟩
  else if s = sym "F" then ⟨i * 4, i * -2, i * -1, i * 2, 0, 0, 0⟩
  else if s = sym "ohm" then ⟨i * -3, i * 2, i, i * -2, 0, 0, 0⟩
  else if s = sym "Ω" then ⟨i * -3, i * 2, i, i * -2, 0, 0, 0⟩
  else if s = sym "S" then ⟨i * 3, i * -2, i * -1, i * 2, 0, 0, 0⟩
  else if s = sym "H" then ⟨i * -2, i * 2, i, i * -2, 0, 0, 0⟩
  else if s = sym "kat" then ⟨i * -1, 0, 0, 0, 0, i, 0⟩
  else if s = sym "dimensionless" then zeroPQ
  else zeroPQ

/-- `fn unit_as_physical_quantity` (src/parser.rs): `map(unit_as_tuple,
table lookup)`. -/
def unit_as_physical_quantity (i : Chars) : PR PhysicalQuantity :=
  match unit_as_tuple i with
  | .error e => .error e
  | .ok (r, (s, n)) => .ok (r, unitPQ s n)

/-- The loop of `separated_list0(multispace1, unit_as_physical_quantity)`
(nom 7's implementation): after a successful separator nom checks that
the separator consumed input (else `ErrorKind::SeparatedList`), parses
one more element, and pushes it.  A separator or element failure ends
the list before the separator.  The fuel parameter is a model artifact
making the recursion structural; `unitsAux_isOk` proves the supplied
fuel is never exhausted (each iteration strictly consumes input). -/
def unitsAux (fuel : Nat) (i : Chars) (acc : List PhysicalQuantity) :
    PR (List PhysicalQuantity) :=
  match fuel with
  | 0 => .error ⟨i, .FuelK⟩
  | f + 1 =>
    match multispace1 i with
    | .error _ => .ok (i, acc)
    | .ok (i1, _) =>
      if i1.length = i.length then .error ⟨i1, .SeparatedListK⟩
      else
        match unit_as_physical_quantity i1 with
        | .error _ => .ok (i, acc)
        | .ok (i2, o) => unitsAux f i2 (acc ++ [o])

/-- `fn units` = `separated_list0(multispace1, unit_as_physical_quantity)`
(src/parser.rs). -/
def units (i : Chars) : PR (List PhysicalQuantity) :=
  match unit_as_physical_quantity i with
  | .error _ => .ok (i, [])
  | .ok (i1, o) => unitsAux (i1.length + 1) i1 [o]

/-- `fn combined_unit` (src/parser.rs): parse `units`, then fold the
vectors with `*` starting from the dimensionless identity. -/
def combined_unit (i : Chars) : PR PhysicalQuantity :=
  match units i with
  | .error e => .error e
  | .ok (r, l) => .ok (r, l.foldl (fun acc pq => pqMul acc pq) zeroPQ)

/-! ## nom's `double` float parser -/

/-- Remainder after `opt(alt((char('+'), char('-'))))`. -/
def optSignRem (i : Chars) : Chars :=
  match i with
  | c :: t => if c = '+' || c = '-' then t else c :: t
  | [] => []

/-- Remainder after the mantissa part of nom's `recognize_float`:
`alt((digit1 ~ opt('.' ~ opt(digit1)), '.' ~ digit1))`. -/
def floatBody (i : Chars) : Except NomErr Chars :=
  match digit1 i with
  | .ok (r, _) =>
    .ok (match r with
         | '.' :: r2 => r2.dropWhile Char.isDigit
         | _ => r)
  | .error _ =>
    match charP '.' i with
    | .error e => .error e
    | .ok (r, _) =>
      match digit1 r with
      | .error e => .error e
      | .ok (r2, _) => .ok r2

/-- Remainder after `opt((e|E) ~ opt(sign) ~ digit1)`.  nom wraps the
final `digit1` in `cut`, turning a missing exponent digit into an
`Err::Failure`; the modelled entry point maps every nom error to the
same `CustomError::ParseError`, so the cut is modelled as an ordinary
non-consuming `opt` failure. -/
def optExpRem (i : Chars) : Chars :=
  match i with
  | c :: t =>
    if c = 'e' || c = 'E' then
      match digit1 (optSignRem t) with
      | .ok (r2, _) => r2
      | .error _ => c :: t
    else c :: t
  | [] => []

/-- nom's `recognize_float`: returns the consumed float text. -/
def recognize_float (i : Chars) : PR Chars :=
  match floatBody (optSignRem i) with
  | .error _ => .error ⟨i, .FloatK⟩
  | .ok i2 =>
    .ok (optExpRem i2, i.take (i.length - (optExpRem i2).length))

/-- Sign factor of a float text (`-1` for a leading minus). -/
def fvSign (cs : Chars) : Int :=
  match cs with
  | c :: _ => if c = '-' then -1 else 1
  | [] => 1

/-- Float text with a leading sign stripped. -/
def fvBody (cs : Chars) : Chars :=
  match cs with
  | c :: u => if c = '+' then u else if c = '-' then u else c :: u
  | [] => []

/-- Fraction digits of a float text after the integer digits. -/
def fvFrac (t1 : Chars) : Chars :=
  match t1 with
  | c :: u => if c = '.' then u.takeWhile Char.isDigit else []
  | [] => []

/-- Float text after the optional fraction part. -/
def fvAfterFrac (t1 : Chars) : Chars :=
  match t1 with
  | c :: u => if c = '.' then u.dropWhile Char.isDigit else c :: u
  | [] => []

/-- Signed exponent value of an optional `e`/`E` exponent suffix. -/
def fvExp (t2 : Chars) : Int :=
  match t2 with
  | c :: u =>
    if c = 'e' || c = 'E' then
      match u with
      | c2 :: v =>
        if c2 = '+' then digitsVal (v.takeWhile Char.isDigit)
        else if c2 = '-' then -(digitsVal (v.takeWhile Char.isDigit))
        else digitsVal ((c2 :: v).takeWhile Char.isDigit)
      | [] => 0
    else 0
  | [] => 0

/-- Exact rational value of a recognized float text (Rust
`str::parse::<f64>` rounds this to the nearest double; the `F64` model
keeps it exact, see the header comment).  Computed with integer
arithmetic and a single `mkRat` so that it evaluates inside the
kernel. -/
def floatVal (cs : Chars) : ℚ :=
  let t := fvBody cs
  let ip := t.takeWhile Char.isDigit
  let fp := fvFrac (t.dropWhile Char.isDigit)
  let ex := fvExp (fvAfterFrac (t.dropWhile Char.isDigit))
  let mant : Int := fvSign cs * (digitsVal ip * (10 : Int) ^ fp.length + digitsVal fp)
  if 0 ≤ ex then mkRat (mant * (10 : Int) ^ ex.toNat) ((10 : Nat) ^ fp.length)
  else mkRat mant ((10 : Nat) ^ fp.length * (10 : Nat) ^ (-ex).toNat)

/-- Case-insensitive prefix test for nom `tag_no_case`. -/
def caselessPre : Chars → Chars → Bool
  | [], _ => true
  | _ :: _, [] => false
  | a :: as1, b :: bs => (a.toLower = b.toLower) && caselessPre as1 bs

/-- `nom::bytes::complete::tag_no_case`. -/
def tagNoCase (t : Chars) (i : Chars) : PR Chars :=
  if caselessPre t i then .ok (i.drop t.length, i.take t.length)
  else .error ⟨i, .TagK⟩

/-- `nom::number::complete::double`: `recognize_float_or_exceptions`
(a recognized decimal float, or a case-insensitive `nan`/`inf`/
`infinity` literal) converted to a value.  All failures carry
`ErrorKind::Float` at the original input. -/
def double (i : Chars) : PR F64 :=
  match recognize_float i with
  | .ok (r, cs) => .ok (r, .fin (floatVal cs))
  | .error _ =>
    match tagNoCase "nan".data i with
    | .ok (r, _) => .ok (r, .nan)
    | .error _ =>
      match tagNoCase "inf".data i with
      | .ok (r, _) => .ok (r, .inf)
      | .error _ =>
        match tagNoCase "infinity".data i with
        | .ok (r, _) => .ok (r, .inf)
        | .error _ => .error ⟨i, .FloatK⟩

/-! ## The number layer and the expression grammar -/

/-- `fn ws` (src/parser.rs): `delimited(multispace0, inner, multispace0)`. -/
def ws {α : Type} (inner : Chars → PR α) (i : Chars) : PR α :=
  match inner (ms0 i) with
  | .error e => .error e
  | .ok (r, v) => .ok (ms0 r, v)

/-- `pub fn get_concrete_number_as_tuple` (src/parser.rs):
`pair(ws(double), ws(combined_unit))` — note there is no mandatory
whitespace between the two (each `ws` permits zero whitespace). -/
def get_concrete_number_as_tuple (i : Chars) : PR (F64 × PhysicalQuantity) :=
  match ws double i with
  | .error e => .error e
  | .ok (i1, magnitude) =>
    match ws combined_unit i1 with
    | .error e => .error e
    | .ok (i2, physical_quantity) => .ok (i2, (magnitude, physical_quantity))

/-- `fn concrete_number` (src/parser.rs). -/
def concrete_number (i : Chars) : PR ConcreteNumber :=
  match get_concrete_number_as_tuple i with
  | .error e => .error e
  | .ok (r, (m, p)) => .ok (r, ⟨m, p⟩)

/-- `fn fold_exprs` (src/parser.rs): left-fold the operator/operand
list onto the initial expression. -/
def fold_exprs (initial : Expr) (remainder : List (Oper × Expr)) : Expr :=
  remainder.foldl (fun acc p =>
    match p with
    | (Oper.Add, e) => Expr.Add acc e
    | (Oper.Sub, e) => Expr.Sub acc e
    | (Oper.Mul, e) => Expr.Mul acc e
    | (Oper.Div, e) => Expr.Div acc e) initial

/-! The recursive grammar `expr`/`term`/`factor`/`parens`
(src/parser.rs).  The Rust recursion is bounded because `parens` only
recurses after consuming `(`; the model makes this explicit with a
fuel parameter decremented at every call.  The entry point supplies
`16 * (input length + 2)` fuel: every parser either consumes input or
descends the fixed grammar chain `expr → many0 → expr_add → term →
many0 → term_mul → factor → parens` of height below 16, so the fuel
bound is never reached on any input (each unit of fuel spent without
consuming input moves strictly down that chain). -/

mutual

/-- `fn factor` (src/parser.rs):
`alt((map(ws(concrete_number), Expr::Value), parens))`. -/
def factor (fuel : Nat) (i : Chars) : PR Expr :=
  match fuel with
  | 0 => .error ⟨i, .FuelK⟩
  | f + 1 =>
    match ws concrete_number i with
    | .ok (r, cn) => .ok (r, .Value cn)
    | .error _ => parens f i

/-- `fn parens` (src/parser.rs):
`delimited(multispace0, delimited(tag "(", map(expr, Paren), tag ")"), multispace0)`. -/
def parens (fuel : Nat) (i : Chars) : PR Expr :=
  match fuel with
  | 0 => .error ⟨i, .FuelK⟩
  | f + 1 =>
    match tagP "(".data (ms0 i) with
    | .error e => .error e
    | .ok (i1, _) =>
      match expr f i1 with
      | .error e => .error e
      | .ok (i2, ex) =>
        match tagP ")".data i2 with
        | .error e2 => .error e2
        | .ok (i3, _) => .ok (ms0 i3, .Paren ex)

/-- `fn term_mul` (src/parser.rs): `preceded(ws(tag("*")), ws(factor))`. -/
def term_mul (fuel : Nat) (i : Chars) : PR (Oper × Expr) :=
  match fuel with
  | 0 => .error ⟨i, .FuelK⟩
  | f + 1 =>
    match tagP "*".data (ms0 i) with
    | .error e => .error e
    | .ok (i1, _) =>
      match factor f (ms0 (ms0 i1)) with
      | .error e => .error e
      | .ok (i2, x) => .ok (ms0 i2, (Oper.Mul, x))

/-- `fn term_div` (src/parser.rs): `preceded(ws(tag("/")), ws(factor))`. -/
def term_div (fuel : Nat) (i : Chars) : PR (Oper × Expr) :=
  match fuel with
  | 0 => .error ⟨i, .FuelK⟩
  | f + 1 =>
    match tagP "/".data (ms0 i) with
    | .error e => .error e
    | .ok (i1, _) =>
      match factor f (ms0 (ms0 i1)) with
      | .error e => .error e
      | .ok (i2, x) => .ok (ms0 i2, (Oper.Div, x))

/-- `many0(alt((term_mul, term_div)))` inside `term` (src/parser.rs),
with nom 7's `many0` infinite-loop check. -/
def many0_muldiv (fuel : Nat) (i : Chars) : PR (List (Oper × Expr)) :=
  match fuel with
  | 0 => .error ⟨i, .FuelK⟩
  | f + 1 =>
    match
      (match term_mul f i with
       | .error _ => term_div f i
       | .ok r => .ok r) with
    | .error _ => .ok (i, [])
    | .ok (i1, p) =>
      if i1.length = i.length then .error ⟨i, .Many0K⟩
      else
        match many0_muldiv f i1 with
        | .error e => .error e
        | .ok (i2, ps) => .ok (i2, p :: ps)

/-- `fn term` (src/parser.rs). -/
def term (fuel : Nat) (i : Chars) : PR Expr :=
  match fuel with
  | 0 => .error ⟨i, .FuelK⟩
  | f + 1 =>
    match factor f i with
    | .error e => .error e
    | .ok (i1, initial) =>
      match many0_muldiv f i1 with
      | .error e => .error e
      | .ok (i2, remainder) => .ok (i2, fold_exprs initial remainder)

/-- `fn expr_add` (src/parser.rs): `preceded(ws(tag("+")), term)`. -/
def expr_add (fuel : Nat) (i : Chars) : PR (Oper × Expr) :=
  match fuel with
  | 0 => .error ⟨i, .FuelK⟩
  | f + 1 =>
    match tagP "+".data (ms0 i) with
    | .error e => .error e
    | .ok (i1, _) =>
      match term f (ms0 i1) with
      | .error e => .error e
      | .ok (i2, x) => .ok (i2, (Oper.Add, x))

/-- `fn expr_sub` (src/parser.rs): `preceded(ws(tag("-")), term)`. -/
def expr_sub (fuel : Nat) (i : Chars) : PR (Oper × Expr) :=
  match fuel with
  | 0 => .error ⟨i, .FuelK⟩
  | f + 1 =>
    match tagP "-".data (ms0 i) with
    | .error e => .error e
    | .ok (i1, _) =>
      match term f (ms0 i1) with
      | .error e => .error e
      | .ok (i2, x) => .ok (i2, (Oper.Sub, x))

/-- `many0(alt((expr_add, expr_sub)))` inside `expr` (src/parser.rs). -/
def many0_addsub (fuel : Nat) (i : Chars) : PR (List (Oper × Expr)) :=
  match fuel with
  | 0 => .error ⟨i, .FuelK⟩
  | f + 1 =>
    match
      (match expr_add f i with
       | .error _ => expr_sub f i
       | .ok r => .ok r) with
    | .error _ => .ok (i, [])
    | .ok (i1, p) =>
      if i1.length = i.length then .error ⟨i, .Many0K⟩
      else
        match many0_addsub f i1 with
        | .error e => .error e
        | .ok (i2, ps) => .ok (i2, p :: ps)

/-- `fn expr` (src/parser.rs). -/
def expr (fuel : Nat) (i : Chars) : PR Expr :=
  match fuel with
  | 0 => .error ⟨i, .FuelK⟩
  | f + 1 =>
    match term f i with
    | .error e => .error e
    | .ok (i1, initial) =>
      match many0_addsub f i1 with
      | .error e => .error e
      | .ok (i2, remainder) => .ok (i2, fold_exprs initial remainder)

end

/-! ## The entry point -/

/-- `format!("({})", input)` (src/parser.rs, `evaluate_physical_equation`). -/
def wrapInput (input : String) : Chars := '(' :: input.data ++ [')']

/-- Fuel supplied to the grammar; see the comment before `factor`. -/
def fuelFor (w : Chars) : Nat := 16 * (w.length + 2)

/-- The top-level `expr(input.as_str())` call. -/
def exprTop (w : Chars) : PR Expr := expr (fuelFor w) w

/-- Rust `Debug` names of the reachable `nom::error::ErrorKind`s. -/
def nomKindName : NomKind → Chars
  | .TagK => "Tag".data
  | .CharK => "Char".data
  | .TakeWhile1K => "TakeWhile1".data
  | .DigitK => "Digit".data
  | .FloatK => "Float".data
  | .MultiSpaceK => "MultiSpace".data
  | .SeparatedListK => "SeparatedList".data
  | .Many0K => "Many0".data
  | .FuelK => "Fuel".data

/-- The `{e}` display of a failed nom parse as interpolated by
`evaluate_physical_equation`: `Display` of `nom::Err::Error(e)` is
`Parsing Error: ` followed by the derived `Debug` of
`nom::error::Error` (input string quoted; string escapes are not
modelled — no input in scope contains a character Rust would escape). -/
def nomErrDisplay (e : NomErr) : Chars :=
  "Parsing Error: Error \x7b input: \"".data ++ e.input ++
    "\", code: ".data ++ nomKindName e.code ++ " \x7d".data

/-! ## Display (`impl Display for PhysicalQuantity/ConcreteNumber`,
src/main.rs) -/

/-- ASCII digit character of a single decimal digit. -/
def digitChar (d : Nat) : Char :=
  match d with
  | 0 => '0'
  | 1 => '1'
  | 2 => '2'
  | 3 => '3'
  | 4 => '4'
  | 5 => '5'
  | 6 => '6'
  | 7 => '7'
  | 8 => '8'
  | _ => '9'

/-- Fuel-structural decimal digit rendering (most significant digit
first, no leading zeros). -/
def natCharsGo : Nat → Nat → Chars
  | 0, _ => []
  | f + 1, n =>
    if n < 10 then [digitChar n]
    else natCharsGo f (n / 10) ++ [digitChar (n % 10)]

/-- Canonical decimal numeral of a natural number. -/
def natChars (n : Nat) : Chars := natCharsGo (n + 1) n

/-- Smallest `k` (searched up to the fuel bound) such that the reduced
denominator divides `10^k`, i.e. the length of the terminating decimal
fraction part. -/
def firstPow10Div (d : Nat) : Nat → Nat → Option Nat
  | 0, _ => none
  | fuel + 1, k =>
    if (10 : Nat) ^ k % d = 0 then some k else firstPow10Div d fuel (k + 1)

/-- Decimal rendering of a non-negative rational with terminating
decimal expansion (no trailing zeros, no `.0` on integers).

Fidelity: this matches Rust's `Display for f64` exactly on integer
values below `2^53` (the only scope in which a theorem below relies on
it): such a value is an exact double whose shortest round-trip
rendering is its plain numeral.  For non-integer values Rust prints the
shortest decimal that round-trips through the nearest double, which is
not modelled: the exact expansion printed here can differ (e.g. the
55-digit exact decimal of the double nearest `0.1` prints here as
itself but as `0.1` in Rust).  Non-terminating rationals fall back to a
fraction rendering unreachable from parsing. -/
def ratDisplayNonneg (q : ℚ) : Chars :=
  match firstPow10Div q.den 1200 0 with
  | none => natChars q.num.toNat ++ '/' :: natChars q.den
  | some 0 => natChars q.num.toNat
  | some (k + 1) =>
    let ds := natChars (q.num * (10 : Int) ^ (k + 1) / (q.den : Int)).toNat
    let ds2 := if ds.length ≤ k + 1 then
        List.replicate (k + 2 - ds.length) '0' ++ ds
      else ds
    ds2.take (ds2.length - (k + 1)) ++ '.' :: ds2.drop (ds2.length - (k + 1))

/-- Rust `Display` of an `f64` (`3` not `3.0`, `3.25`, `NaN`, `inf`).
Finite values delegate to `ratDisplayNonneg` and inherit its fidelity
scope (exact on integers below `2^53`, not Rust's shortest-round-trip
beyond them); negative zero, which the model identifies with zero, is
not representable. -/
def f64DisplayChars : F64 → Chars
  | .nan => "NaN".data
  | .inf => "inf".data
  | .neginf => "-inf".data
  | .fin q => if q < 0 then '-' :: ratDisplayNonneg (-q) else ratDisplayNonneg q

/-- Rust byte-lexicographic `str::cmp` as used by
`units.sort_by(|a, b| a.0.cmp(b.0))` (ASCII symbols only, so
code-point order coincides with byte order). -/
def lexLt : Chars → Chars → Bool
  | [], [] => false
  | [], _ :: _ => true
  | _ :: _, [] => false
  | a :: xs, b :: ys =>
    if a.toNat < b.toNat then true
    else if b.toNat < a.toNat then false
    else lexLt xs ys

/-- Stable insertion for the sort below. -/
def insertBySym (x : Chars × Int) : List (Chars × Int) → List (Chars × Int)
  | [] => [x]
  | y :: ys => if lexLt x.1 y.1 then x :: y :: ys else y :: insertBySym x ys

/-- Stable sort by symbol, modelling `Vec::sort_by` with the
`a.0.cmp(b.0)` comparator. -/
def sortBySym : List (Chars × Int) → List (Chars × Int)
  | [] => []
  | x :: xs => insertBySym x (sortBySym xs)

/-- The `units.push(...)` sequence of the `Display` default arm
(src/main.rs): non-zero components in field order. -/
def pushNonzero (v : PhysicalQuantity) : List (Chars × Int) :=
  (if v.time ≠ 0 then [("s".data, v.time)] else []) ++
  (if v.length ≠ 0 then [("m".data, v.length)] else []) ++
  (if v.mass ≠ 0 then [("kg".data, v.mass)] else []) ++
  (if v.current ≠ 0 then [("A".data, v.current)] else []) ++
  (if v.temperature ≠ 0 then [("K".data, v.temperature)] else []) ++
  (if v.amount_of_substance ≠ 0 then [("mol".data, v.amount_of_substance)] else []) ++
  (if v.luminous_intensity ≠ 0 then [("cd".data, v.luminous_intensity)] else [])

/-- `format!("{unit}^{exponent}")` with exponent 1 special-cased
(src/main.rs `Display` default arm). -/
def fmtUnit (p : Chars × Int) : Chars :=
  if p.2 = 1 then p.1 else p.1 ++ '^' :: (Int.repr p.2).data

/-- The `Display` default arm: sorted non-zero components joined by
spaces. -/
def pqDefaultDisplay (v : PhysicalQuantity) : Chars :=
  List.intercalate " ".data ((sortBySym (pushNonzero v)).map fmtUnit)

/-- `impl Display for PhysicalQuantity` (src/main.rs): the named-unit
arms in source order (note the `kat` arm matches time = +1, not the
−1 produced by parsing `kat`), then `dimensionless`, then the sorted
symbolic product. -/
def pqDisplayChars (v : PhysicalQuantity) : Chars :=
  if v = ⟨1, 0, 0, 0, 0, 0, 0⟩ then "s".data
  else if v = ⟨0, 1, 0, 0, 0, 0, 0⟩ then "m".data
  else if v = ⟨0, 0, 1, 0, 0, 0, 0⟩ then "kg".data
  else if v = ⟨0, 0, 0, 1, 0, 0, 0⟩ then "A".data
  else if v = ⟨0, 0, 0, 0, 1, 0, 0⟩ then "K".data
  else if v = ⟨0, 0, 0, 0, 0, 1, 0⟩ then "mol".data
  else if v = ⟨0, 0, 0, 0, 0, 0, 1⟩ then "cd".data
  else if v = ⟨-1, 0, 0, 0, 0, 0, 0⟩ then "Hz".data
  else if v = ⟨-2, 1, 1, 0, 0, 0, 0⟩ then "N".data
  else if v = ⟨-2, -1, 1, 0, 0, 0, 0⟩ then "Pa".data
  else if v = ⟨-2, 2, 1, 0, 0, 0, 0⟩ then "J".data
  else if v = ⟨-3, 2, 1, 0, 0, 0, 0⟩ then "W".data
  else if v = ⟨1, 0, 0, 1, 0, 0, 0⟩ then "C".data
  else if v = ⟨-3, 2, 1, -1, 0, 0, 0⟩ then "V".data
  else if v = ⟨-2, 2, 1, -1, 0, 0, 0⟩ then "Wb".data
  else if v = ⟨-2, 0, 1, -1, 0, 0, 0⟩ then "T".data
  else if v = ⟨4, -2, -1, 2, 0, 0, 0⟩ then "F".data
  else if v = ⟨-3, 2, 1, -2, 0, 0, 0⟩ then "Ω".data
  else if v = ⟨3, -2, -1, 2, 0, 0, 0⟩ then "S".data
  else if v = ⟨-2, 2, 1, -2, 0, 0, 0⟩ then "H".data
  else if v = ⟨1, 0, 0, 0, 0, 1, 0⟩ then "kat".data
  else if v = ⟨0, 0, 0, 0, 0, 0, 0⟩ then "dimensionless".data
  else pqDefaultDisplay v

/-- `impl Display for ConcreteNumber` (src/main.rs):
`"{magnitude} {physical_quantity}"`. -/
def cnDisplay (c : ConcreteNumber) : String :=
  String.mk (f64DisplayChars c.magnitude ++ ' ' :: pqDisplayChars c.physical_quantity)

/-- `pub fn evaluate_physical_equation` (src/parser.rs): wrap the input
in parentheses, parse, reject unconsumed remainder, then evaluate. -/
def evaluate_physical_equation (input : String) :
    Except CustomError ConcreteNumber :=
  match exprTop (wrapInput input) with
  | .error e =>
    .error (.ParseError (String.mk
      ("ERR: Could not parse input: ".data ++ nomErrDisplay e)))
  | .ok (remainder, ex) =>
    if remainder.isEmpty then ex.evaluate
    else
      .error (.ParseError (String.mk
        ("ERR: Could not parse full input. Remaining input: ".data ++ remainder)))

/-- The named unit symbols for which parse-then-display round-trips:
the seven base units and the derived symbols except the alias `ohm`
(which displays as `Ω`), `Ω` itself (which the parser rejects, see C6)
and `kat` (whose display-table arm has the wrong time sign). -/
def roundTripSymbols : List String :=
  ["s", "m", "kg", "A", "K", "mol", "cd", "Hz", "N", "Pa", "J", "W", "C",
   "V", "Wb", "T", "F", "S", "H"]

/-! ## Supporting lemmas -/

theorem length_dropWhile_le (p : Char → Bool) (l : Chars) :
    (l.dropWhile p).length ≤ l.length := by
  induction l with
  | nil => simp
  | cons c t ih =>
    by_cases h : p c <;> simp [List.dropWhile, h] <;> omega

theorem word_length_le {i r w : Chars} (h : word i = .ok (r, w)) :
    r.length ≤ i.length := by
  unfold word at h
  split at h
  · simp at h
  · obtain ⟨h1, _⟩ := Prod.mk.injEq .. ▸ (Except.ok.injEq _ _).mp h
    exact h1 ▸ length_dropWhile_le alphabet_char i

theorem digit1_length_le {i r w : Chars} (h : digit1 i = .ok (r, w)) :
    r.length ≤ i.length := by
  unfold digit1 at h
  split at h
  · simp at h
  · obtain ⟨h1, _⟩ := Prod.mk.injEq .. ▸ (Except.ok.injEq _ _).mp h
    exact h1 ▸ length_dropWhile_le Char.isDigit i

theorem tagP_length_le {t i r w : Chars} (h : tagP t i = .ok (r, w)) :
    r.length ≤ i.length := by
  unfold tagP at h
  split at h
  · obtain ⟨h1, _⟩ := Prod.mk.injEq .. ▸ (Except.ok.injEq _ _).mp h
    subst h1
    simp
  · simp at h

theorem charP_length_le {c : Char} {i r : Chars} {v : Char}
    (h : charP c i = .ok (r, v)) : r.length ≤ i.length := by
  unfold charP at h
  match i with
  | [] => simp at h
  | x :: xs =>
    simp only at h
    split at h
    · obtain ⟨h1, _⟩ := Prod.mk.injEq .. ▸ (Except.ok.injEq _ _).mp h
      subst h1
      simp
    · simp at h

theorem parse_isize_length_le {i r : Chars} {n : Int}
    (h : parse_isize i = .ok (r, n)) : r.length ≤ i.length := by
  unfold parse_isize at h
  split at h
  · rename_i i1 w htag
    split at h
    · simp at h
    · rename_i i2 ds hdig
      obtain ⟨h1, _⟩ := Prod.mk.injEq .. ▸ (Except.ok.injEq _ _).mp h
      subst h1
      exact le_trans (digit1_length_le hdig) (tagP_length_le htag)
  · split at h
    · simp at h
    · rename_i i2 ds hdig
      obtain ⟨h1, _⟩ := Prod.mk.injEq .. ▸ (Except.ok.injEq _ _).mp h
      subst h1
      exact digit1_length_le hdig

theorem unit_exp_pair_length_le {i r : Chars} {sv : Chars × Int}
    (h : unit_exp_pair i = .ok (r, sv)) : r.length ≤ i.length := by
  unfold unit_exp_pair at h
  split at h
  · simp at h
  · rename_i i1 w hword
    split at h
    · simp at h
    · rename_i i2 c hchar
      split at h
      · simp at h
      · rename_i i3 m hiz
        cases h
        exact le_trans (parse_isize_length_le hiz)
          (le_trans (charP_length_le hchar) (word_length_le hword))

theorem unit_alt_length_le {i r : Chars} {sv : Chars × Int}
    (h : unit_alt i = .ok (r, sv)) : r.length ≤ i.length := by
  unfold unit_alt at h
  split at h
  · split at h
    · simp at h
    · rename_i i1 w hword
      cases h
      exact word_length_le hword
  · rename_i hb1
    cases h
    exact unit_exp_pair_length_le hb1

theorem unit_as_tuple_length_le {i r : Chars} {sv : Chars × Int}
    (h : unit_as_tuple i = .ok (r, sv)) : r.length ≤ i.length := by
  unfold unit_as_tuple at h
  split at h
  · -- fallback branch: both alt branches failed, no input consumed
    obtain ⟨h1, _⟩ := Prod.mk.injEq .. ▸ (Except.ok.injEq _ _).mp h
    exact h1 ▸ le_rfl
  · rename_i hb1
    cases h
    exact unit_alt_length_le hb1

theorem unit_as_physical_quantity_length_le {i r : Chars}
    {v : PhysicalQuantity} (h : unit_as_physical_quantity i = .ok (r, v)) :
    r.length ≤ i.length := by
  unfold unit_as_physical_quantity at h
  split at h
  · simp at h
  · rename_i r' sv hut
    cases h
    exact unit_as_tuple_length_le hut

theorem multispace1_length_lt {i r sp : Chars}
    (h : multispace1 i = .ok (r, sp)) : r.length < i.length := by
  unfold multispace1 at h
  split at h
  · simp at h
  · rename_i hne
    obtain ⟨h1, _⟩ := Prod.mk.injEq .. ▸ (Except.ok.injEq _ _).mp h
    subst h1
    match i with
    | [] => simp [List.takeWhile] at hne
    | c :: t =>
      by_cases hc : rustSpace c
      · simp only [List.dropWhile, hc]
        exact Nat.lt_succ_of_le (length_dropWhile_le rustSpace t)
      · simp [List.takeWhile, hc] at hne

/-- The fuel supplied by `units` is sufficient: the separator-consumption
check makes each loop iteration strictly shrink the input, so with fuel
exceeding the input length `unitsAux` always returns `Ok` — the loop of
`separated_list0` cannot fail here. -/
theorem unitsAux_isOk :
    ∀ (fuel : Nat) (i : Chars), i.length < fuel →
      ∀ acc, ∃ r l, unitsAux fuel i acc = .ok (r, l) := by
  intro fuel
  induction fuel with
  | zero => intro i hi; omega
  | succ f ih =>
    intro i hi acc
    show ∃ r l,
      (match multispace1 i with
       | .error _ => (Except.ok (i, acc) : PR (List PhysicalQuantity))
       | .ok (i1, _) =>
         if i1.length = i.length then Except.error ⟨i1, .SeparatedListK⟩
         else
           match unit_as_physical_quantity i1 with
           | .error _ => Except.ok (i, acc)
           | .ok (i2, o) => unitsAux f i2 (acc ++ [o])) = Except.ok (r, l)
    match hms : multispace1 i with
    | .error _ => exact ⟨i, acc, rfl⟩
    | .ok (i1, sp) =>
      have hlt := multispace1_length_lt hms
      simp only [if_neg (by omega : ¬ i1.length = i.length)]
      match hel : unit_as_physical_quantity i1 with
      | .error _ => exact ⟨i, acc, rfl⟩
      | .ok (i2, o) =>
        have hle := unit_as_physical_quantity_length_le hel
        exact ih i2 (by omega) (acc ++ [o])

/-! ## Round-trip machinery for C8

`expr_number_paren` threads a canonical `"<float> <unit>"` input through
the wrapped grammar: the hypotheses say exactly that `double` consumes
the float text (`Hd`), that the float text does not begin with
whitespace (`H0`), and how the concrete unit tail parses
(`Hms`/`Hms2`/`Hcu`); everything else is computed. -/

theorem takeWhile_of_all (p : Char → Bool) {l : Chars}
    (h : ∀ x ∈ l, p x = true) : l.takeWhile p = l := by
  induction l with
  | nil => rfl
  | cons a t ih =>
    rw [List.takeWhile_cons, if_pos (h a (List.mem_cons_self a t)),
      ih (fun x hx => h x (List.mem_cons_of_mem a hx))]

theorem dropWhile_of_all (p : Char → Bool) {l : Chars}
    (h : ∀ x ∈ l, p x = true) : l.dropWhile p = [] := by
  induction l with
  | nil => rfl
  | cons a t ih =>
    rw [List.dropWhile_cons, if_pos (h a (List.mem_cons_self a t)),
      ih (fun x hx => h x (List.mem_cons_of_mem a hx))]

theorem takeWhile_append_of_all (p : Char → Bool) {xs : Chars} (ys : Chars)
    (h : ∀ x ∈ xs, p x = true) :
    (xs ++ ys).takeWhile p = xs ++ ys.takeWhile p := by
  induction xs with
  | nil => simp
  | cons a t ih =>
    rw [List.cons_append, List.takeWhile_cons,
      if_pos (h a (List.mem_cons_self a t)),
      ih (fun x hx => h x (List.mem_cons_of_mem a hx)), List.cons_append]

theorem dropWhile_append_of_all (p : Char → Bool) {xs : Chars} (ys : Chars)
    (h : ∀ x ∈ xs, p x = true) :
    (xs ++ ys).dropWhile p = ys.dropWhile p := by
  induction xs with
  | nil => rfl
  | cons a t ih =>
    rw [List.cons_append, List.dropWhile_cons,
      if_pos (h a (List.mem_cons_self a t)),
      ih (fun x hx => h x (List.mem_cons_of_mem a hx))]

theorem digitChar_toNat {d : Nat} (h : d < 10) :
    (digitChar d).toNat = 48 + d := by
  interval_cases d <;> decide

theorem digitChar_isDigit {d : Nat} (h : d < 10) :
    (digitChar d).isDigit = true := by
  interval_cases d <;> decide

theorem digitsVal_append_singleton (xs : Chars) (c : Char) :
    digitsVal (xs ++ [c]) = digitsVal xs * 10 + ((c.toNat : Int) - 48) := by
  unfold digitsVal
  rw [List.foldl_append]
  simp only [List.foldl_cons, List.foldl_nil]

theorem natCharsGo_spec (f : Nat) :
    ∀ n : Nat, n < f →
      digitsVal (natCharsGo f n) = (n : Int) ∧
      (∀ c ∈ natCharsGo f n, c.isDigit = true) ∧ natCharsGo f n ≠ [] := by
  induction f with
  | zero => exact fun n hn => absurd hn (Nat.not_lt_zero n)
  | succ g ih =>
    intro n hn
    have hnc : natCharsGo (g + 1) n =
        if n < 10 then [digitChar n]
        else natCharsGo g (n / 10) ++ [digitChar (n % 10)] := rfl
    by_cases h10 : n < 10
    · have he : natCharsGo (g + 1) n = [digitChar n] := by
        rw [hnc, if_pos h10]
      rw [he]
      refine ⟨?_, ?_, by simp⟩
      · unfold digitsVal
        simp only [List.foldl_cons, List.foldl_nil]
        rw [digitChar_toNat h10]
        push_cast
        omega
      · intro c hc
        rw [List.mem_singleton] at hc
        subst hc
        exact digitChar_isDigit h10
    · have hlt : n / 10 < g := by omega
      obtain ⟨hv, hdig, hne0⟩ := ih (n / 10) hlt
      have he : natCharsGo (g + 1) n =
          natCharsGo g (n / 10) ++ [digitChar (n % 10)] := by
        rw [hnc, if_neg h10]
      rw [he]
      refine ⟨?_, ?_, by simp⟩
      · rw [digitsVal_append_singleton, hv,
          digitChar_toNat (Nat.mod_lt n (by omega))]
        push_cast
        omega
      · intro c hc
        rcases List.mem_append.mp hc with hc | hc
        · exact hdig c hc
        · rw [List.mem_singleton] at hc
          subst hc
          exact digitChar_isDigit (Nat.mod_lt n (by omega))

theorem digitsVal_natChars (n : Nat) : digitsVal (natChars n) = (n : Int) :=
  (natCharsGo_spec (n + 1) n (Nat.lt_succ_self n)).1

theorem natChars_all_digits (n : Nat) :
    ∀ c ∈ natChars n, c.isDigit = true :=
  (natCharsGo_spec (n + 1) n (Nat.lt_succ_self n)).2.1

theorem natChars_ne_nil (n : Nat) : natChars n ≠ [] :=
  (natCharsGo_spec (n + 1) n (Nat.lt_succ_self n)).2.2

theorem isDigit_ne_plus {c : Char} (h : c.isDigit = true) : ¬c = '+' := by
  intro he
  subst he
  exact absurd h (by decide)

theorem isDigit_ne_minus {c : Char} (h : c.isDigit = true) : ¬c = '-' := by
  intro he
  subst he
  exact absurd h (by decide)

theorem isDigit_not_space {c : Char} (h : c.isDigit = true) :
    rustSpace c = false := by
  cases hsp : rustSpace c with
  | false => rfl
  | true =>
    exfalso
    unfold rustSpace at hsp
    simp only [Bool.or_eq_true, decide_eq_true_eq] at hsp
    rcases hsp with ((h1 | h1) | h1) | h1 <;> subst h1 <;>
      exact absurd h (by decide)

theorem ms0_cons_not_space {c : Char} (t : Chars) (h : rustSpace c = false) :
    ms0 (c :: t) = c :: t := by
  unfold ms0
  rw [List.dropWhile_cons, if_neg (by simp [h])]

theorem ms0_digits {xs : Chars} (zs : Chars) (hne : xs ≠ [])
    (hall : ∀ x ∈ xs, x.isDigit = true) :
    ms0 (xs ++ zs) = xs ++ zs := by
  obtain ⟨c, rest, rfl⟩ := List.exists_cons_of_ne_nil hne
  rw [List.cons_append]
  exact ms0_cons_not_space _
    (isDigit_not_space (hall c (List.mem_cons_self c rest)))

theorem floatVal_digits {cs : Chars} (hne : cs ≠ [])
    (hall : ∀ x ∈ cs, x.isDigit = true) :
    floatVal cs = ((digitsVal cs : Int) : ℚ) := by
  obtain ⟨c, rest, rfl⟩ := List.exists_cons_of_ne_nil hne
  have hc : c.isDigit = true := hall c (List.mem_cons_self c rest)
  have hsgn : fvSign (c :: rest) = 1 := by
    simp [fvSign, isDigit_ne_minus hc]
  have hbody : fvBody (c :: rest) = c :: rest := by
    simp [fvBody, isDigit_ne_plus hc, isDigit_ne_minus hc]
  have htake : (c :: rest).takeWhile Char.isDigit = c :: rest :=
    takeWhile_of_all Char.isDigit hall
  have hdrop : (c :: rest).dropWhile Char.isDigit = [] :=
    dropWhile_of_all Char.isDigit hall
  simp only [floatVal, hbody, htake, hdrop, hsgn,
    show fvFrac ([] : Chars) = [] from rfl,
    show fvAfterFrac ([] : Chars) = [] from rfl,
    show fvExp ([] : Chars) = 0 from rfl,
    show digitsVal ([] : Chars) = 0 from rfl]
  norm_num [Rat.mkRat_eq_div]

theorem digit1_digits {xs : Chars} (y : Char) (ys : Chars) (hne : xs ≠ [])
    (hall : ∀ x ∈ xs, x.isDigit = true) (hy : y.isDigit = false) :
    digit1 (xs ++ y :: ys) = .ok (y :: ys, xs) := by
  have ht : (xs ++ y :: ys).takeWhile Char.isDigit = xs := by
    rw [takeWhile_append_of_all Char.isDigit (y :: ys) hall,
      List.takeWhile_cons, if_neg (by simp [hy]), List.append_nil]
  have hd : (xs ++ y :: ys).dropWhile Char.isDigit = y :: ys := by
    rw [dropWhile_append_of_all Char.isDigit (y :: ys) hall,
      List.dropWhile_cons, if_neg (by simp [hy])]
  have hemp : xs.isEmpty = false := by
    cases xs with
    | nil => exact absurd rfl hne
    | cons a t => rfl
  unfold digit1
  rw [ht, hd, hemp]
  rfl

theorem floatBody_digits {xs : Chars} (ys : Chars) (hne : xs ≠ [])
    (hall : ∀ x ∈ xs, x.isDigit = true) :
    floatBody (xs ++ ' ' :: ys) = .ok (' ' :: ys) := by
  unfold floatBody
  rw [digit1_digits ' ' ys hne hall (by decide)]
  rfl

theorem recognize_float_digits {xs : Chars} (ys : Chars) (hne : xs ≠ [])
    (hall : ∀ x ∈ xs, x.isDigit = true) :
    recognize_float (xs ++ ' ' :: ys) = .ok (' ' :: ys, xs) := by
  obtain ⟨c, rest, hxs⟩ := List.exists_cons_of_ne_nil hne
  have hc : c.isDigit = true := hall c (hxs ▸ List.mem_cons_self c rest)
  have hopt : optSignRem (xs ++ ' ' :: ys) = xs ++ ' ' :: ys := by
    rw [hxs, List.cons_append]
    simp [optSignRem, isDigit_ne_plus hc, isDigit_ne_minus hc]
  unfold recognize_float
  rw [hopt, floatBody_digits ys hne hall]
  dsimp only
  rw [show optExpRem (' ' :: ys) = ' ' :: ys from rfl,
    List.length_append, Nat.add_sub_cancel, List.take_left]

theorem double_digits {xs : Chars} (ys : Chars) (hne : xs ≠ [])
    (hall : ∀ x ∈ xs, x.isDigit = true) :
    double (xs ++ ' ' :: ys) = .ok (' ' :: ys, .fin ((digitsVal xs : Int) : ℚ)) := by
  unfold double
  rw [recognize_float_digits ys hne hall]
  dsimp only
  rw [floatVal_digits hne hall]

theorem f64Display_natCast (n : Nat) :
    f64DisplayChars (.fin (n : ℚ)) = natChars n := by
  simp only [f64DisplayChars]
  rw [if_neg (not_lt.mpr (Nat.cast_nonneg n))]
  unfold ratDisplayNonneg
  rw [Rat.den_natCast, show firstPow10Div 1 1200 0 = some 0 from rfl]
  dsimp only
  rw [Rat.num_natCast, Int.toNat_natCast]

theorem ws_eq {α : Type} (p : Chars → PR α) (i : Chars) :
    ws p i =
      match p (ms0 i) with
      | .error e => .error e
      | .ok (r, x) => .ok (ms0 r, x) := rfl

theorem concrete_number_eq (i : Chars) :
    concrete_number i =
      match get_concrete_number_as_tuple i with
      | .error e => .error e
      | .ok (r, (mg, p)) => .ok (r, ⟨mg, p⟩) := rfl

theorem get_concrete_number_as_tuple_eq (i : Chars) :
    get_concrete_number_as_tuple i =
      match ws double i with
      | .error e => .error e
      | .ok (i1, magnitude) =>
        match ws combined_unit i1 with
        | .error e => .error e
        | .ok (i2, physical_quantity) =>
          .ok (i2, (magnitude, physical_quantity)) := rfl

theorem factor_succ (f : Nat) (i : Chars) :
    factor (f + 1) i =
      match ws concrete_number i with
      | .ok (r, cn) => .ok (r, .Value cn)
      | .error _ => parens f i := rfl

theorem parens_succ (f : Nat) (i : Chars) :
    parens (f + 1) i =
      match tagP "(".data (ms0 i) with
      | .error e => .error e
      | .ok (i1, _) =>
        match expr f i1 with
        | .error e => .error e
        | .ok (i2, ex) =>
          match tagP ")".data i2 with
          | .error e2 => .error e2
          | .ok (i3, _) => .ok (ms0 i3, .Paren ex) := rfl

theorem term_succ (f : Nat) (i : Chars) :
    term (f + 1) i =
      match factor f i with
      | .error e => .error e
      | .ok (i1, initial) =>
        match many0_muldiv f i1 with
        | .error e => .error e
        | .ok (i2, remainder) => .ok (i2, fold_exprs initial remainder) := rfl

theorem expr_succ (f : Nat) (i : Chars) :
    expr (f + 1) i =
      match term f i with
      | .error e => .error e
      | .ok (i1, initial) =>
        match many0_addsub f i1 with
        | .error e => .error e
        | .ok (i2, remainder) => .ok (i2, fold_exprs initial remainder) := rfl

theorem expr_number_paren (sD uD : Chars) (q : ℚ) (v : PhysicalQuantity)
    (m : Nat)
    (H0 : ms0 (sD ++ ' ' :: (uD ++ [')'])) = sD ++ ' ' :: (uD ++ [')']))
    (Hd : double (sD ++ ' ' :: (uD ++ [')'])) =
      .ok (' ' :: (uD ++ [')']), .fin q))
    (Hms : ms0 (' ' :: (uD ++ [')'])) = uD ++ [')'])
    (Hms2 : ms0 (uD ++ [')']) = uD ++ [')'])
    (Hcu : combined_unit (uD ++ [')']) = .ok ([')'], v)) :
    expr (m + 10) ('(' :: (sD ++ ' ' :: (uD ++ [')']))) =
      .ok ([], .Paren (.Value ⟨.fin q, v⟩)) := by
  have hwsd : ws double (sD ++ ' ' :: (uD ++ [')'])) =
      .ok (uD ++ [')'], .fin q) := by
    rw [ws_eq double, H0, Hd]
    dsimp only
    rw [Hms]
  have hwscu : ws combined_unit (uD ++ [')']) = .ok ([')'], v) := by
    rw [ws_eq combined_unit, Hms2, Hcu]
    rfl
  have hgcn : get_concrete_number_as_tuple (sD ++ ' ' :: (uD ++ [')'])) =
      .ok ([')'], (.fin q, v)) := by
    rw [get_concrete_number_as_tuple_eq, hwsd]
    dsimp only
    rw [hwscu]
  have hcn0 : concrete_number (sD ++ ' ' :: (uD ++ [')'])) =
      .ok ([')'], ⟨.fin q, v⟩) := by
    rw [concrete_number_eq, hgcn]
  have hwcn : ws concrete_number (sD ++ ' ' :: (uD ++ [')'])) =
      .ok ([')'], ⟨.fin q, v⟩) := by
    rw [ws_eq concrete_number, H0, hcn0]
    rfl
  have hfac4 : factor (m + 4) (sD ++ ' ' :: (uD ++ [')'])) =
      .ok ([')'], .Value ⟨.fin q, v⟩) := by
    rw [show m + 4 = (m + 3) + 1 from rfl, factor_succ, hwcn]
  have hterm5 : term (m + 5) (sD ++ ' ' :: (uD ++ [')'])) =
      .ok ([')'], .Value ⟨.fin q, v⟩) := by
    rw [show m + 5 = (m + 4) + 1 from rfl, term_succ, hfac4]
    rfl
  have hexpr6 : expr (m + 6) (sD ++ ' ' :: (uD ++ [')'])) =
      .ok ([')'], .Value ⟨.fin q, v⟩) := by
    rw [show m + 6 = (m + 5) + 1 from rfl, expr_succ, hterm5]
    rfl
  have hpar7 : parens (m + 7) ('(' :: (sD ++ ' ' :: (uD ++ [')']))) =
      .ok ([], .Paren (.Value ⟨.fin q, v⟩)) := by
    rw [show m + 7 = (m + 6) + 1 from rfl, parens_succ,
      show tagP "(".data (ms0 ('(' :: (sD ++ ' ' :: (uD ++ [')'])))) =
        .ok (sD ++ ' ' :: (uD ++ [')']), "(".data) from rfl]
    dsimp only
    rw [hexpr6]
    rfl
  have hterm9 : term (m + 9) ('(' :: (sD ++ ' ' :: (uD ++ [')']))) =
      .ok ([], .Paren (.Value ⟨.fin q, v⟩)) := by
    rw [show m + 9 = (m + 8) + 1 from rfl, term_succ,
      show factor (m + 8) ('(' :: (sD ++ ' ' :: (uD ++ [')']))) =
        parens (m + 7) ('(' :: (sD ++ ' ' :: (uD ++ [')']))) from rfl, hpar7]
    rfl
  rw [show m + 10 = (m + 9) + 1 from rfl, expr_succ, hterm9]
  rfl

/-- Assembly of a full round trip from the parse of the wrapped input:
evaluation produces the parsed Quantity and the display reproduces the
input, given that the magnitude text and unit symbol re-render to
themselves (`Hr`/`Hp`). -/
theorem eval_roundtrip_assemble (s u : String) (q : ℚ) (v : PhysicalQuantity)
    (H0 : ms0 (s.data ++ ' ' :: (u.data ++ [')'])) =
      s.data ++ ' ' :: (u.data ++ [')']))
    (Hd : double (s.data ++ ' ' :: (u.data ++ [')'])) =
      .ok (' ' :: (u.data ++ [')']), .fin q))
    (Hms : ms0 (' ' :: (u.data ++ [')'])) = u.data ++ [')'])
    (Hms2 : ms0 (u.data ++ [')']) = u.data ++ [')'])
    (Hcu : combined_unit (u.data ++ [')']) = .ok ([')'], v))
    (Hr : f64DisplayChars (.fin q) = s.data)
    (Hp : pqDisplayChars v = u.data) :
    evaluate_physical_equation (s ++ " " ++ u) = .ok ⟨.fin q, v⟩ ∧
    cnDisplay ⟨.fin q, v⟩ = s ++ " " ++ u := by
  have hsp : (" " : String).data = [' '] := rfl
  have hw : wrapInput (s ++ " " ++ u) =
      '(' :: (s.data ++ ' ' :: (u.data ++ [')'])) := by
    simp [wrapInput, String.data_append, List.append_assoc, hsp]
  constructor
  · unfold evaluate_physical_equation exprTop
    rw [hw]
    obtain ⟨m, hm⟩ :
        ∃ m, fuelFor ('(' :: (s.data ++ ' ' :: (u.data ++ [')']))) = m + 10 :=
      ⟨fuelFor ('(' :: (s.data ++ ' ' :: (u.data ++ [')']))) - 10,
        by unfold fuelFor; omega⟩
    rw [hm, expr_number_paren s.data u.data q v m H0 Hd Hms Hms2 Hcu]
    rfl
  · show String.mk (f64DisplayChars (.fin q) ++ ' ' :: pqDisplayChars v) =
      s ++ " " ++ u
    rw [Hr, Hp]
    apply String.ext
    simp [String.data_append, List.append_assoc, hsp]

/-- Round trip for a canonical integer numeral and a unit symbol whose
parsed vector re-displays as the symbol itself: the magnitude text
`natChars n` is all digits, so `double` consumes exactly it and its
value is the integer `n`, which `f64DisplayChars` renders back as the
same numeral. -/
theorem C8_core (u : String) (n : Nat)
    (Hms2 : ms0 (u.data ++ [')']) = u.data ++ [')'])
    (Hcu : combined_unit (u.data ++ [')']) = .ok ([')'], unitPQ u.data 1))
    (Hp : pqDisplayChars (unitPQ u.data 1) = u.data) :
    evaluate_physical_equation (⟨natChars n⟩ ++ " " ++ u) =
      .ok ⟨.fin (n : ℚ), unitPQ u.data 1⟩ ∧
    cnDisplay ⟨.fin (n : ℚ), unitPQ u.data 1⟩ = ⟨natChars n⟩ ++ " " ++ u := by
  have hall := natChars_all_digits n
  have hne := natChars_ne_nil n
  have Hd : double (natChars n ++ ' ' :: (u.data ++ [')'])) =
      .ok (' ' :: (u.data ++ [')']), .fin (n : ℚ)) := by
    have h := double_digits (u.data ++ [')']) hne hall
    rw [digitsVal_natChars, Int.cast_natCast] at h
    exact h
  have H0 : ms0 (natChars n ++ ' ' :: (u.data ++ [')'])) =
      natChars n ++ ' ' :: (u.data ++ [')']) :=
    ms0_digits _ hne hall
  have Hms : ms0 (' ' :: (u.data ++ [')'])) = u.data ++ [')'] := by
    rw [show ms0 (' ' :: (u.data ++ [')'])) = ms0 (u.data ++ [')']) from rfl]
    exact Hms2
  have Hr : f64DisplayChars (.fin (n : ℚ)) = (⟨natChars n⟩ : String).data :=
    f64Display_natCast n
  exact eval_roundtrip_assemble ⟨natChars n⟩ u (n : ℚ) (unitPQ u.data 1)
    H0 Hd Hms Hms2 Hcu Hr Hp

/-! ## Claims -/

/-- C2: `add(a,b)` fails with `AddingTwoDifferentUnits` iff the two
dimension vectors differ in some component, and otherwise returns the
magnitude sum paired with the shared dimension; `subtract(a,b)` has the
same contract with the magnitude difference and
`SubtractingTwoDifferentUnits`. -/
theorem C2_add_sub_dimension_contract (a b : ConcreteNumber) :
    (cnAdd a b = .error .AddingTwoDifferentUnits ↔
      a.physical_quantity ≠ b.physical_quantity) ∧
    (a.physical_quantity ≠ b.physical_quantity ↔
      (a.physical_quantity.time ≠ b.physical_quantity.time ∨
       a.physical_quantity.length ≠ b.physical_quantity.length ∨
       a.physical_quantity.mass ≠ b.physical_quantity.mass ∨
       a.physical_quantity.current ≠ b.physical_quantity.current ∨
       a.physical_quantity.temperature ≠ b.physical_quantity.temperature ∨
       a.physical_quantity.amount_of_substance ≠
         b.physical_quantity.amount_of_substance ∨
       a.physical_quantity.luminous_intensity ≠
         b.physical_quantity.luminous_intensity)) ∧
    (a.physical_quantity = b.physical_quantity →
      cnAdd a b = .ok ⟨f64Add a.magnitude b.magnitude, a.physical_quantity⟩) ∧
    (cnSub a b = .error .SubtractingTwoDifferentUnits ↔
      a.physical_quantity ≠ b.physical_quantity) ∧
    (a.physical_quantity = b.physical_quantity →
      cnSub a b = .ok ⟨f64Sub a.magnitude b.magnitude, a.physical_quantity⟩) := by
  refine ⟨?_, ?_, ?_, ?_, ?_⟩
  · by_cases h : a.physical_quantity = b.physical_quantity <;> simp [cnAdd, h]
  · rw [Ne, PhysicalQuantity.ext_iff]
    tauto
  · intro h
    simp [cnAdd, h]
  · by_cases h : a.physical_quantity = b.physical_quantity <;> simp [cnSub, h]
  · intro h
    simp [cnSub, h]

theorem C2_witness :
    cnAdd ⟨.fin 3, ⟨0, 1, 0, 0, 0, 0, 0⟩⟩ ⟨.fin 4, ⟨0, 0, 1, 0, 0, 0, 0⟩⟩ =
      .error .AddingTwoDifferentUnits ∧
    cnAdd ⟨.fin 3, ⟨0, 1, 0, 0, 0, 0, 0⟩⟩ ⟨.fin 4, ⟨0, 1, 0, 0, 0, 0, 0⟩⟩ =
      .ok ⟨.fin 7, ⟨0, 1, 0, 0, 0, 0, 0⟩⟩ ∧
    cnSub ⟨.fin 3, ⟨0, 1, 0, 0, 0, 0, 0⟩⟩ ⟨.fin 4, ⟨0, 0, 1, 0, 0, 0, 0⟩⟩ =
      .error .SubtractingTwoDifferentUnits := by
  refine ⟨(C2_add_sub_dimension_contract _ _).1.mpr (by decide), ?_,
    (C2_add_sub_dimension_contract _ _).2.2.2.1.mpr (by decide)⟩
  have h := (C2_add_sub_dimension_contract
    ⟨.fin 3, ⟨0, 1, 0, 0, 0, 0, 0⟩⟩ ⟨.fin 4, ⟨0, 1, 0, 0, 0, 0, 0⟩⟩).2.2.1 rfl
  rw [h]
  norm_num [f64Add]

/-- C3: a binary node (`Add`, `Sub`, `Mul`, `Div`) whose either child
fails evaluates to exactly the generic `SubExpressionError`; when both
children succeed, a dimension mismatch under `+`/`-` surfaces verbatim
as `AddingTwoDifferentUnits`/`SubtractingTwoDifferentUnits`; `Paren e`
evaluates to exactly `e`'s result, and `Value q` to `q`. -/
theorem C3_evaluator_error_contract (a b : Expr) :
    (((∃ e, a.evaluate = .error e) ∨ (∃ e, b.evaluate = .error e)) →
      ((Expr.Add a b).evaluate = .error .SubExpressionError ∧
       (Expr.Sub a b).evaluate = .error .SubExpressionError ∧
       (Expr.Mul a b).evaluate = .error .SubExpressionError ∧
       (Expr.Div a b).evaluate = .error .SubExpressionError)) ∧
    (∀ qa qb, a.evaluate = .ok qa → b.evaluate = .ok qb →
      qa.physical_quantity ≠ qb.physical_quantity →
      ((Expr.Add a b).evaluate = .error .AddingTwoDifferentUnits ∧
       (Expr.Sub a b).evaluate = .error .SubtractingTwoDifferentUnits)) ∧
    (Expr.Paren a).evaluate = a.evaluate ∧
    (∀ q, (Expr.Value q).evaluate = .ok q) := by
  refine ⟨?_, ?_, rfl, fun _ => rfl⟩
  · rintro (⟨e, he⟩ | ⟨e, he⟩) <;>
      refine ⟨?_, ?_, ?_, ?_⟩ <;>
      simp only [Expr.evaluate] <;>
      rw [he] <;>
      cases hb : Expr.evaluate b <;>
      cases ha : Expr.evaluate a <;>
      simp_all
  · intro qa qb ha hb hne
    constructor <;> simp only [Expr.evaluate] <;> rw [ha, hb] <;>
      simp [cnAdd, cnSub, hne]

theorem C3_witness :
    (Expr.Mul (Expr.Add (.Value ⟨.fin 3, ⟨0, 1, 0, 0, 0, 0, 0⟩⟩)
        (.Value ⟨.fin 4, ⟨0, 0, 1, 0, 0, 0, 0⟩⟩))
      (.Value ⟨.fin 1, ⟨0, 1, 0, 0, 0, 0, 0⟩⟩)).evaluate =
      .error .SubExpressionError ∧
    (Expr.Add (.Value ⟨.fin 3, ⟨0, 1, 0, 0, 0, 0, 0⟩⟩)
        (.Value ⟨.fin 4, ⟨0, 0, 1, 0, 0, 0, 0⟩⟩)).evaluate =
      .error .AddingTwoDifferentUnits := by
  refine ⟨((C3_evaluator_error_contract _ _).1
      (Or.inl ⟨.AddingTwoDifferentUnits, by decide⟩)).2.2.1, ?_⟩
  exact ((C3_evaluator_error_contract
    (.Value ⟨.fin 3, ⟨0, 1, 0, 0, 0, 0, 0⟩⟩)
    (.Value ⟨.fin 4, ⟨0, 0, 1, 0, 0, 0, 0⟩⟩)).2.1
    ⟨.fin 3, ⟨0, 1, 0, 0, 0, 0, 0⟩⟩ ⟨.fin 4, ⟨0, 0, 1, 0, 0, 0, 0⟩⟩
    rfl rfl (by decide)).1

/-- C9 counterexample: the claim quantifies over every Quantity with
non-zero magnitude, but an infinite magnitude is non-zero and
`inf / inf = NaN ≠ 1.0`, so `divide(q, q)` does not always yield
magnitude `1.0`. -/
theorem C9_counterexample :
    ¬ (∀ q : ConcreteNumber, q.magnitude ≠ .fin 0 →
        cnDiv q q = ⟨.fin 1, zeroPQ⟩) := by
  intro h
  exact absurd (h ⟨.inf, ⟨0, 1, 0, 0, 0, 0, 0⟩⟩ (by decide)) (by decide)

/-- C9 (amended): for every Quantity whose magnitude is finite and
non-zero, `divide(q, q)` yields the all-zero dimension vector and
magnitude exactly `1.0`. -/
theorem C9_divide_self (q : ConcreteNumber) (x : ℚ)
    (hfin : q.magnitude = .fin x) (hx : x ≠ 0) :
    cnDiv q q = ⟨.fin 1, zeroPQ⟩ := by
  obtain ⟨m, v⟩ := q
  cases hfin
  simp only [cnDiv, f64Div, pqDiv, zeroPQ, if_neg hx]
  rw [div_self hx]
  simp [ConcreteNumber.mk.injEq, PhysicalQuantity.mk.injEq]

set_option maxHeartbeats 2000000 in
/-- C7: for every unit symbol and every integer exponent `n`, the table
lookup at exponent `n` equals the exponent-1 (looked-up) vector with
every component multiplied by `n`; in particular the `N^2` token parses
to the vector of `N` multiplied by itself under the dimension-vector
product. -/
theorem C7_exponent_scaling :
    (∀ (s : Chars) (n : Int), unitPQ s n = pqScale n (unitPQ s 1)) ∧
    unit_as_physical_quantity "N^2".data = .ok ([], ⟨-4, 2, 2, 0, 0, 0, 0⟩) ∧
    unitPQ "N".data 2 = pqMul (unitPQ "N".data 1) (unitPQ "N".data 1) := by
  refine ⟨?_, by decide, by decide⟩
  intro s n
  unfold unitPQ
  by_cases h1 : s = sym "s"
  · simp only [if_pos h1, pqScale, zeroPQ]
    refine PhysicalQuantity.ext ?_ ?_ ?_ ?_ ?_ ?_ ?_ <;> ring
  · simp only [if_neg h1]
    by_cases h2 : s = sym "m"
    · simp only [if_pos h2, pqScale, zeroPQ]
      refine PhysicalQuantity.ext ?_ ?_ ?_ ?_ ?_ ?_ ?_ <;> ring
    · simp only [if_neg h2]
      by_cases h3 : s = sym "kg"
      · simp only [if_pos h3, pqScale, zeroPQ]
        refine PhysicalQuantity.ext ?_ ?_ ?_ ?_ ?_ ?_ ?_ <;> ring
      · simp only [if_neg h3]
        by_cases h4 : s = sym "A"
        · simp only [if_pos h4, pqScale, zeroPQ]
          refine PhysicalQuantity.ext ?_ ?_ ?_ ?_ ?_ ?_ ?_ <;> ring
        · simp only [if_neg h4]
          by_cases h5 : s = sym "K"
          · simp only [if_pos h5, pqScale, zeroPQ]
            refine PhysicalQuantity.ext ?_ ?_ ?_ ?_ ?_ ?_ ?_ <;> ring
          · simp only [if_neg h5]
            by_cases h6 : s = sym "mol"
            · simp only [if_pos h6, pqScale, zeroPQ]
              refine PhysicalQuantity.ext ?_ ?_ ?_ ?_ ?_ ?_ ?_ <;> ring
            · simp only [if_neg h6]
              by_cases h7 : s = sym "cd"
              · simp only [if_pos h7, pqScale, zeroPQ]
                refine PhysicalQuantity.ext ?_ ?_ ?_ ?_ ?_ ?_ ?_ <;> ring
              · simp only [if_neg h7]
                by_cases h8 : s = sym "Hz"
                · simp only [if_pos h8, pqScale, zeroPQ]
                  refine PhysicalQuantity.ext ?_ ?_ ?_ ?_ ?_ ?_ ?_ <;> ring
                · simp only [if_neg h8]
                  by_cases h9 : s = sym "N"
                  · simp only [if_pos h9, pqScale, zeroPQ]
                    refine PhysicalQuantity.ext ?_ ?_ ?_ ?_ ?_ ?_ ?_ <;> ring
                  · simp only [if_neg h9]
                    by_cases h10 : s = sym "Pa"
                    · simp only [if_pos h10, pqScale, zeroPQ]
                      refine PhysicalQuantity.ext ?_ ?_ ?_ ?_ ?_ ?_ ?_ <;> ring
                    · simp only [if_neg h10]
                      by_cases h11 : s = sym "J"
                      · simp only [if_pos h11, pqScale, zeroPQ]
                        refine PhysicalQuantity.ext ?_ ?_ ?_ ?_ ?_ ?_ ?_ <;> ring
                      · simp only [if_neg h11]
                        by_cases h12 : s = sym "W"
                        · simp only [if_pos h12, pqScale, zeroPQ]
                          refine PhysicalQuantity.ext ?_ ?_ ?_ ?_ ?_ ?_ ?_ <;> ring
                        · simp only [if_neg h12]
                          by_cases h13 : s = sym "C"
                          · simp only [if_pos h13, pqScale, zeroPQ]
                            refine PhysicalQuantity.ext ?_ ?_ ?_ ?_ ?_ ?_ ?_ <;> ring
                          · simp only [if_neg h13]
                            by_cases h14 : s = sym "V"
                            · simp only [if_pos h14, pqScale, zeroPQ]
                              refine PhysicalQuantity.ext ?_ ?_ ?_ ?_ ?_ ?_ ?_ <;> ring
                            · simp only [if_neg h14]
                              by_cases h15 : s = sym "Wb"
                              · simp only [if_pos h15, pqScale, zeroPQ]
                                refine PhysicalQuantity.ext ?_ ?_ ?_ ?_ ?_ ?_ ?_ <;> ring
                              · simp only [if_neg h15]
                                by_cases h16 : s = sym "T"
                                · simp only [if_pos h16, pqScale, zeroPQ]
                                  refine PhysicalQuantity.ext ?_ ?_ ?_ ?_ ?_ ?_ ?_ <;> ring
                                · simp only [if_neg h16]
                                  by_cases h17 : s = sym "F"
                                  · simp only [if_pos h17, pqScale, zeroPQ]
                                    refine PhysicalQuantity.ext ?_ ?_ ?_ ?_ ?_ ?_ ?_ <;> ring
                                  · simp only [if_neg h17]
                                    by_cases h18 : s = sym "ohm"
                                    · simp only [if_pos h18, pqScale, zeroPQ]
                                      refine PhysicalQuantity.ext ?_ ?_ ?_ ?_ ?_ ?_ ?_ <;> ring
                                    · simp only [if_neg h18]
                                      by_cases h19 : s = sym "Ω"
                                      · simp only [if_pos h19, pqScale, zeroPQ]
                                        refine PhysicalQuantity.ext ?_ ?_ ?_ ?_ ?_ ?_ ?_ <;> ring
                                      · simp only [if_neg h19]
                                        by_cases h20 : s = sym "S"
                                        · simp only [if_pos h20, pqScale, zeroPQ]
                                          refine PhysicalQuantity.ext ?_ ?_ ?_ ?_ ?_ ?_ ?_ <;> ring
                                        · simp only [if_neg h20]
                                          by_cases h21 : s = sym "H"
                                          · simp only [if_pos h21, pqScale, zeroPQ]
                                            refine PhysicalQuantity.ext ?_ ?_ ?_ ?_ ?_ ?_ ?_ <;> ring
                                          · simp only [if_neg h21]
                                            by_cases h22 : s = sym "kat"
                                            · simp only [if_pos h22, pqScale, zeroPQ]
                                              refine PhysicalQuantity.ext ?_ ?_ ?_ ?_ ?_ ?_ ?_ <;> ring
                                            · simp only [if_neg h22]
                                              by_cases h23 : s = sym "dimensionless"
                                              · simp only [if_pos h23, pqScale, zeroPQ]
                                                refine PhysicalQuantity.ext ?_ ?_ ?_ ?_ ?_ ?_ ?_ <;> ring
                                              · simp only [if_neg h23]
                                                simp only [pqScale, zeroPQ]
                                                refine PhysicalQuantity.ext ?_ ?_ ?_ ?_ ?_ ?_ ?_ <;> ring

/-- C10: the compound-unit layer is total — `unit_as_tuple`, `units`
and `combined_unit` always return `Ok`; when no unit token can be read
(`word` fails) the tuple parser yields the dimensionless identity
consuming no input; a malformed exponent is likewise left behind as
unconsumed remainder (e.g. `m^x` reads just `m`). -/
theorem C10_unit_layer_total (i : Chars) :
    (∃ r sv, unit_as_tuple i = .ok (r, sv)) ∧
    (∃ r l, units i = .ok (r, l)) ∧
    (∃ r v, combined_unit i = .ok (r, v)) ∧
    ((∃ e, word i = .error e) →
      unit_as_tuple i = .ok (i, ("dimensionless".data, 1)) ∧
      unit_as_physical_quantity i = .ok (i, zeroPQ)) ∧
    unit_as_tuple "m^x".data = .ok ("^x".data, ("m".data, 1)) := by
  have hut : ∃ r sv, unit_as_tuple i = .ok (r, sv) := by
    cases h : unit_alt i with
    | error e =>
      exact ⟨i, ("dimensionless".data, 1), by simp [unit_as_tuple, h]⟩
    | ok v =>
      obtain ⟨r0, sv0⟩ := v
      exact ⟨r0, sv0, by simp [unit_as_tuple, h]⟩
  have hus : ∃ r l, units i = .ok (r, l) := by
    cases h : unit_as_physical_quantity i with
    | error e => exact ⟨i, [], by simp [units, h]⟩
    | ok v =>
      obtain ⟨r, l, hr⟩ :=
        unitsAux_isOk (v.1.length + 1) v.1 (Nat.lt_succ_self _) [v.2]
      exact ⟨r, l, by simp [units, h, hr]⟩
  obtain ⟨r, l, hr⟩ := hus
  refine ⟨hut, ⟨r, l, hr⟩,
    ⟨r, l.foldl (fun acc pq => pqMul acc pq) zeroPQ,
      by simp [combined_unit, hr]⟩, ?_, by decide⟩
  rintro ⟨e, he⟩
  have htup : unit_as_tuple i = .ok (i, ("dimensionless".data, 1)) := by
    simp [unit_as_tuple, unit_alt, unit_exp_pair, he]
  exact ⟨htup, by simp [unit_as_physical_quantity, htup]; decide⟩

theorem C10_witness :
    unit_as_physical_quantity "@#".data = .ok ("@#".data, zeroPQ) :=
  ((C10_unit_layer_total "@#".data).2.2.2.1
    ⟨⟨"@#".data, .TakeWhile1K⟩, by decide⟩).2

/-- C1: the claim requires an `UnknownUnitSymbol` error for an unknown
unit symbol, but the code's `_ => pq.build()` fallback (commented
"should really be an error") silently yields the all-zero dimension
vector: `evaluate("5 foo")` succeeds as a dimensionless 5. -/
theorem C1_unknown_unit_dimensionless :
    evaluate_physical_equation "5 foo" = .ok ⟨.fin 5, zeroPQ⟩ ∧
    unitPQ "foo".data 1 = zeroPQ :=
  ⟨by decide, by decide⟩

/-- C5 counterexample: the claim says `"3m"` (no whitespace) must fail,
but `pair(ws(double), ws(combined_unit))` requires no separator —
`evaluate("3m")` succeeds as 3 metres. -/
theorem C5_counterexample :
    evaluate_physical_equation "3m" = .ok ⟨.fin 3, ⟨0, 1, 0, 0, 0, 0, 0⟩⟩ := by
  decide

/-- C5 (amended): whitespace between the magnitude and the compound
unit is optional (`ws` uses `multispace0` on both sides), so `"3m"`
evaluates successfully and to the same Quantity as `"3 m"`. -/
theorem C5_separator_optional :
    evaluate_physical_equation "3m" = evaluate_physical_equation "3 m" ∧
    evaluate_physical_equation "3 m" = .ok ⟨.fin 3, ⟨0, 1, 0, 0, 0, 0, 0⟩⟩ :=
  ⟨by decide, by decide⟩

/-- C6: the claim (and the spec) say `Ω` is accepted and equivalent to
`ohm`, but `alphabet_char` truncates the char to its low byte
(`c as u8`), so `Ω` (U+03A9, low byte 0xA9) fails the ASCII-letter test,
`word` rejects it, and `evaluate("3 Ω")` is a `ParseError` while
`evaluate("3 ohm")` succeeds — the `"ohm" | "Ω"` table arm is
unreachable for `Ω` from the parser. -/
theorem C6_omega_rejected :
    alphabet_char 'Ω' = false ∧
    evaluate_physical_equation "3 Ω" = .error (.ParseError
      "ERR: Could not parse input: Parsing Error: Error \x7b input: \"Ω)\", code: Tag \x7d") ∧
    evaluate_physical_equation "3 ohm" =
      .ok ⟨.fin 3, ⟨-3, 2, 1, -2, 0, 0, 0⟩⟩ :=
  ⟨by decide, by decide, by decide⟩

/-- C4: success of `evaluate_physical_equation` is only possible when
the (wrapped) input is fully consumed; a successful parse with
non-empty remainder yields exactly the `ParseError` citing that
remainder; and the claim's example `"3 m @"` fails with a `ParseError`
whose detail contains the unconsumed `"@"`. -/
theorem C4_full_consumption :
    (∀ (input : String) (rem : Chars) (ex : Expr),
      exprTop (wrapInput input) = .ok (rem, ex) → rem ≠ [] →
      evaluate_physical_equation input = .error (.ParseError (String.mk
        ("ERR: Could not parse full input. Remaining input: ".data ++ rem)))) ∧
    (∀ (input : String) (cn : ConcreteNumber),
      evaluate_physical_equation input = .ok cn →
      ∃ ex : Expr, exprTop (wrapInput input) = .ok ([], ex) ∧
        ex.evaluate = .ok cn) ∧
    (∃ pre post : String,
      evaluate_physical_equation "3 m @" =
        .error (.ParseError (pre ++ "@" ++ post))) := by
  refine ⟨?_, ?_, ?_⟩
  · intro input rem ex h hne
    unfold evaluate_physical_equation
    rw [h]
    simp [List.isEmpty_iff, hne]
  · intro input cn h
    unfold evaluate_physical_equation at h
    cases hp : exprTop (wrapInput input) with
    | error e => rw [hp] at h; simp at h
    | ok v =>
      obtain ⟨rem, ex⟩ := v
      rw [hp] at h
      dsimp only at h
      by_cases hr : rem.isEmpty
      · rw [List.isEmpty_iff] at hr
        subst hr
        rw [if_pos (by decide)] at h
        exact ⟨ex, rfl, h⟩
      · rw [if_neg hr] at h
        simp at h
  · exact ⟨"ERR: Could not parse input: Parsing Error: Error \x7b input: \"",
      ")\", code: Tag \x7d", by decide⟩

theorem C4_witness :
    evaluate_physical_equation "3 m ) x" = .error (.ParseError
      "ERR: Could not parse full input. Remaining input: x)") := by
  have h := C4_full_consumption.1 "3 m ) x" "x)".data
    (Expr.Paren (Expr.Value ⟨.fin 3, ⟨0, 1, 0, 0, 0, 0, 0⟩⟩))
    (by decide) (by decide)
  exact h.trans (by decide)

/-- C8 counterexample: the round-trip claim fails for the derived
symbols `ohm` (the parsed Quantity re-displays as `Ω`) and `kat` (the
display table's `kat` arm matches time = +1 while parsing `kat` yields
time = −1, so it re-displays as the sorted product `mol s^-1`), and
also for non-canonical magnitude texts such as `"3.0 s"`, which the
program re-displays as `"3 s"`. -/
theorem C8_counterexample :
    evaluate_physical_equation "3 ohm" =
      .ok ⟨.fin 3, ⟨-3, 2, 1, -2, 0, 0, 0⟩⟩ ∧
    cnDisplay ⟨.fin 3, ⟨-3, 2, 1, -2, 0, 0, 0⟩⟩ = "3 Ω" ∧
    ("3 Ω" : String) ≠ "3 ohm" ∧
    evaluate_physical_equation "3 kat" =
      .ok ⟨.fin 3, ⟨-1, 0, 0, 0, 0, 1, 0⟩⟩ ∧
    cnDisplay ⟨.fin 3, ⟨-1, 0, 0, 0, 0, 1, 0⟩⟩ = "3 mol s^-1" ∧
    ("3 mol s^-1" : String) ≠ "3 kat" ∧
    evaluate_physical_equation "3.0 s" =
      .ok ⟨.fin 3, ⟨1, 0, 0, 0, 0, 0, 0⟩⟩ ∧
    cnDisplay ⟨.fin 3, ⟨1, 0, 0, 0, 0, 0, 0⟩⟩ = "3 s" ∧
    ("3 s" : String) ≠ "3.0 s" :=
  ⟨by decide, by decide, by decide, by decide, by decide, by decide,
    by decide, by decide, by decide⟩

/-- C8 (amended): for every Quantity parsed from text of the canonical
form `"<integer numeral> <named-unit>"` — the numeral unsigned, without
leading zeros, fraction or exponent, and below `2^53` so that both the
double and its displayed form are exactly the integer — where the named
unit is a base or derived symbol with exponent 1 other than the aliases
`ohm` (re-displays as `Ω`) and `kat` (wrong display-table arm); `Ω`
itself never parses, see C6 — re-formatting the parsed Quantity
reproduces the input exactly. -/
theorem C8_round_trip_display :
    ∀ u ∈ roundTripSymbols, ∀ n : Nat, n < 2 ^ 53 →
      evaluate_physical_equation (⟨natChars n⟩ ++ " " ++ u) =
        .ok ⟨.fin (n : ℚ), unitPQ u.data 1⟩ ∧
      cnDisplay ⟨.fin (n : ℚ), unitPQ u.data 1⟩ =
        ⟨natChars n⟩ ++ " " ++ u := by
  intro u hu n _hn
  fin_cases hu <;> exact C8_core _ n (by decide) (by decide) (by decide)

theorem C8_witness :
    ("s" ∈ roundTripSymbols ∧ (3 : Nat) < 2 ^ 53) ∧
    evaluate_physical_equation "3 s" =
      .ok ⟨.fin ((3 : Nat) : ℚ), unitPQ "s".data 1⟩ ∧
    cnDisplay ⟨.fin ((3 : Nat) : ℚ), unitPQ "s".data 1⟩ = "3 s" := by
  refine ⟨⟨by decide, by decide⟩, ?_⟩
  have h := C8_round_trip_display "s" (by decide) 3 (by decide)
  have hs : (⟨natChars 3⟩ : String) ++ " " ++ "s" = "3 s" := by decide
  rw [hs] at h
  exact h

theorem C9_witness :
    cnDiv ⟨.fin 3, ⟨0, 1, 0, 0, 0, 0, 0⟩⟩ ⟨.fin 3, ⟨0, 1, 0, 0, 0, 0, 0⟩⟩ =
      ⟨.fin 1, zeroPQ⟩ :=
  C9_divide_self ⟨.fin 3, ⟨0, 1, 0, 0, 0, 0, 0⟩⟩ 3 rfl (by norm_num)

end UnitParser
